import Mathlib

/-!
Shallow embedding of the Fritter router middleware
(`src/classes/FritterRouterMiddleware.ts`) and proofs about its dispatch,
parameter-extraction and registry behaviour.

Modelling choices:

* A `FritterMiddlewareFunction` (route middleware or handler) is opaque
  external code; what the dispatcher observes of it is whether it invokes the
  `next` callback handed to it (its one-shot "proceed" capability).  A
  middleware is therefore modelled as an identifier plus a `callsProceed`
  flag, and running a chain produces the list of observable events, in order.
* The external `path-to-regexp` collaborator is modelled by the black-box
  interface `CompiledPattern` (a key list plus a matcher); the dispatcher is
  parameterised over an arbitrary `compile` function.  A concrete model
  `modelCompile` covering literal and `:name` segments is supplied for the
  concrete scenarios.
* The JavaScript builtin `decodeURIComponent` is modelled faithfully:
  percent-escapes decode to bytes, byte runs are UTF-8 decoded, malformed
  input is a `URIError`, modelled as `Except.error ()`.
* The mutable `routeParameters` object is modelled as an association list
  with JavaScript property-assignment semantics (`jsSetProperty`).
* JavaScript object identity (used by `removeRoute` via `indexOf`) is
  modelled by value equality: distinct objects are modelled as distinct
  values.  Array aliasing (`getRoutes` returning the live array) is modelled
  by an explicit heap of array objects addressed by references.
-/

/-- A named parameter slot recorded by the external path-to-regexp compiler:
one of the `Key` values pushed into `rawRouteParameters` (line 89 of the
source). -/
structure Key where
  name : String
  deriving DecidableEq

/-- Abstract model of a `FritterMiddlewareFunction` (a route middleware or a
route handler): `id` identifies the function and `callsProceed` records
whether the function invokes the `next` callback handed to it. -/
structure MW where
  id : Nat
  callsProceed : Bool
  deriving DecidableEq

/-- Observable events of one dispatch: a middleware or handler function being
invoked (`ran id`), and the outer pipeline continuation `next` being
invoked. -/
inductive Event
  | ran (id : Nat)
  | outerNext
  deriving DecidableEq

/-- A `FritterRouterRoute` (lines 31-44 of the source): `method` is an
HTTPMethod string or the wildcard `"ALL"`, `path` is the pattern string,
`middlewares` is the optional middleware list (`middlewares?`), `handler` the
terminal handler. -/
structure FritterRouterRoute where
  method : String
  path : String
  middlewares : Option (List MW)
  handler : MW
  deriving DecidableEq

/-- Black-box interface of a compiled path-to-regexp pattern: `keys` is the
`rawRouteParameters` array filled in by `pathToRegexp` (line 91), and
`exec path` returns `none` when the regular expression does not match the
path, otherwise the list of capture groups (`matches.slice(1)`, line 108),
where a group that did not participate in the match is `none`. -/
structure CompiledPattern where
  keys : List Key
  exec : String → Option (List (Option String))

/-- Value of a hexadecimal digit character, `none` for a non-hex-digit
(48-57 are the codes of the decimal digits, 65-70 of `A`-`F`, 97-102 of
`a`-`f`). -/
def hexVal (c : Char) : Option Nat :=
  let n := c.toNat
  if 48 ≤ n ∧ n ≤ 57 then some (n - 48)
  else if 65 ≤ n ∧ n ≤ 70 then some (n - 55)
  else if 97 ≤ n ∧ n ≤ 102 then some (n - 87)
  else none

/-- Prepend an element to the payload of a successful `Except` result. -/
def consE {α : Type} (a : α) (r : Except Unit (List α)) : Except Unit (List α) :=
  r.map (fun l => a :: l)

/-- First pass of `decodeURIComponent`: turn `%XY` escapes into bytes
(`Sum.inl`) and leave all other characters as they are (`Sum.inr`); a `%` not
followed by two hexadecimal digits is malformed. -/
def percentTokens : List Char → Except Unit (List (Sum Nat Char))
  | [] => .ok []
  | '%' :: h1 :: h2 :: rest =>
      match hexVal h1, hexVal h2 with
      | some a, some b => consE (Sum.inl (16 * a + b)) (percentTokens rest)
      | _, _ => .error ()
  | '%' :: _ => .error ()
  | c :: rest => consE (Sum.inr c) (percentTokens rest)

/-- A UTF-8 continuation byte. -/
def isContByte (b : Nat) : Bool := decide (0x80 ≤ b) && decide (b ≤ 0xBF)

/-- Second pass of `decodeURIComponent`: UTF-8 decode the byte runs produced
by percent-escapes, rejecting stray or missing continuation bytes, overlong
encodings, surrogate code points and out-of-range code points. -/
def utf8DecodeTokens : List (Sum Nat Char) → Except Unit (List Char)
  | [] => .ok []
  | .inr c :: rest => consE c (utf8DecodeTokens rest)
  | .inl b0 :: rest =>
      if b0 ≤ 0x7F then consE (Char.ofNat b0) (utf8DecodeTokens rest)
      else if 0xC2 ≤ b0 ∧ b0 ≤ 0xDF then
        match rest with
        | .inl b1 :: rest2 =>
            if isContByte b1 then
              consE (Char.ofNat ((b0 - 0xC0) * 0x40 + (b1 - 0x80))) (utf8DecodeTokens rest2)
            else .error ()
        | _ => .error ()
      else if 0xE0 ≤ b0 ∧ b0 ≤ 0xEF then
        match rest with
        | .inl b1 :: .inl b2 :: rest2 =>
            let cp := (b0 - 0xE0) * 0x1000 + (b1 - 0x80) * 0x40 + (b2 - 0x80)
            if isContByte b1 && isContByte b2 && decide (0x800 ≤ cp) &&
                !(decide (0xD800 ≤ cp) && decide (cp ≤ 0xDFFF)) then
              consE (Char.ofNat cp) (utf8DecodeTokens rest2)
            else .error ()
        | _ => .error ()
      else if 0xF0 ≤ b0 ∧ b0 ≤ 0xF4 then
        match rest with
        | .inl b1 :: .inl b2 :: .inl b3 :: rest2 =>
            let cp := (b0 - 0xF0) * 0x40000 + (b1 - 0x80) * 0x1000 +
              (b2 - 0x80) * 0x40 + (b3 - 0x80)
            if isContByte b1 && isContByte b2 && isContByte b3 &&
                decide (0x10000 ≤ cp) && decide (cp ≤ 0x10FFFF) then
              consE (Char.ofNat cp) (utf8DecodeTokens rest2)
            else .error ()
        | _ => .error ()
      else .error ()

/-- Model of the JavaScript builtin `decodeURIComponent` (external to the
repository): percent-escapes are decoded to bytes, byte runs are UTF-8
decoded, every other character passes through unchanged; malformed input
raises a `URIError`, modelled as `Except.error ()`. -/
def decodeURIComponent (s : String) : Except Unit String :=
  (percentTokens s.toList).bind (fun toks => (utf8DecodeTokens toks).map String.mk)

/-- JavaScript string coercion applied by `decodeURIComponent` to its
argument: a capture group that did not participate is `undefined`, which
coerces to the string `"undefined"`. -/
def jsCaptureToString : Option String → String
  | some s => s
  | none => "undefined"

/-- JavaScript property assignment on the `routeParameters` object, modelled
on an association list: overwrite the binding of an existing key in place,
otherwise append the new binding. -/
def jsSetProperty : List (String × String) → String → String → List (String × String)
  | [], n, v => [(n, v)]
  | p :: ps, n, v => if p.1 = n then (n, v) :: ps else p :: jsSetProperty ps n v

/-- JavaScript property read on the modelled `routeParameters` object. -/
def getProperty : List (String × String) → String → Option String
  | [], _ => none
  | p :: ps, n => if p.1 = n then some p.2 else getProperty ps n

/-- The parameter-extraction loop (lines 108-116 of the source): walk the
capture groups with their index; when `rawRouteParameters[matchIndex]` exists,
URL-decode the capture and assign it to `routeParameters[key.name]`; a
decoding error aborts the loop and propagates. -/
def extractParamsAux : List Key → List (Option String) → List (String × String) →
    Except Unit (List (String × String))
  | _, [], params => .ok params
  | [], _ :: captures, params => extractParamsAux [] captures params
  | key :: keys, capture :: captures, params =>
      match decodeURIComponent (jsCaptureToString capture) with
      | .error e => .error e
      | .ok v => extractParamsAux keys captures (jsSetProperty params key.name v)

/-- Route-parameter extraction starting from the freshly reset (empty)
`routeParameters` object (line 68 of the source). -/
def extractRouteParameters (keys : List Key) (captures : List (Option String)) :
    Except Unit (List (String × String)) :=
  extractParamsAux keys captures []

/-- The recursive `executeMiddleware` closure (lines 122-146 of the source)
run over the remaining chain: invoking a chain element is observable as
`Event.ran`; an element that invokes its proceed callback hands control to
the rest of the chain; when the cursor passes the last element the proceed
callback invokes the outer pipeline continuation `next` instead
(`Event.outerNext`). -/
def executeMiddleware : List MW → List Event
  | [] => [Event.outerNext]
  | mw :: rest => Event.ran mw.id :: (if mw.callsProceed then executeMiddleware rest else [])

/-- The effective handler chain of a route (lines 124-128 of the source):
`[...route.middlewares ?? [], route.handler]`. -/
def effectiveChain (route : FritterRouterRoute) : List MW :=
  route.middlewares.getD [] ++ [route.handler]

/-- The method-check condition of line 80 of the source:
`route.method != "ALL" && route.method != request.getHttpMethod()`; when it
holds, the loop continues to the next route. -/
def methodCheckSkips (route : FritterRouterRoute) (reqMethod : String) : Prop :=
  route.method ≠ "ALL" ∧ route.method ≠ reqMethod

instance (route : FritterRouterRoute) (reqMethod : String) :
    Decidable (methodCheckSkips route reqMethod) :=
  inferInstanceAs (Decidable (route.method ≠ "ALL" ∧ route.method ≠ reqMethod))

/-- The dispatcher `execute` (lines 62-156 of the source), parameterised over
the external pattern compiler.  The result is `Except.error ()` when a
decoding error propagates out of `execute`; otherwise it is the final
`routeParameters` object together with the ordered list of observable events
(handler invocations and invocations of the outer `next`). -/
def execute (compile : String → CompiledPattern) (reqMethod reqPath : String) :
    List FritterRouterRoute → Except Unit (List (String × String) × List Event)
  | [] => .ok ([], [Event.outerNext])
  | route :: rest =>
      if methodCheckSkips route reqMethod then
        execute compile reqMethod reqPath rest
      else
        match (compile route.path).exec reqPath with
        | none => execute compile reqMethod reqPath rest
        | some captures =>
            match extractRouteParameters (compile route.path).keys captures with
            | .error e => .error e
            | .ok params => .ok (params, executeMiddleware (effectiveChain route))

/-- A route matches a request when it passes the method check and its
compiled pattern matches the request path. -/
def routeMatches (compile : String → CompiledPattern) (reqMethod reqPath : String)
    (route : FritterRouterRoute) : Prop :=
  ¬ methodCheckSkips route reqMethod ∧ (compile route.path).exec reqPath ≠ none

instance (compile : String → CompiledPattern) (reqMethod reqPath : String)
    (route : FritterRouterRoute) :
    Decidable (routeMatches compile reqMethod reqPath route) :=
  inferInstanceAs (Decidable (_ ∧ _))

/-- Split a character list into path segments at `/` characters, like
`String.prototype.split("/")`. -/
def splitSegs : List Char → List (List Char)
  | [] => [[]]
  | c :: cs =>
      let rest := splitSegs cs
      if c = '/' then [] :: rest
      else
        match rest with
        | [] => [[c]]
        | seg :: segs => (c :: seg) :: segs

/-- Segment-wise matching of a pattern against a path: a `:name` pattern
segment captures any nonempty path segment, a literal segment must be equal;
the whole path must be consumed. -/
def segMatch : List (List Char) → List (List Char) → Option (List (Option String))
  | [], [] => some []
  | pseg :: psegs, seg :: segs =>
      match pseg with
      | ':' :: _ =>
          if seg.isEmpty then none
          else (segMatch psegs segs).map (fun caps => some (String.mk seg) :: caps)
      | _ => if pseg = seg then segMatch psegs segs else none
  | _, _ => none

/-- Concrete model of the external path-to-regexp collaborator (spec section
6: compile a pattern string into a matcher plus an ordered parameter-name
list), restricted to patterns made of literal segments and `:name` parameter
segments under the default options: a parameter captures exactly one
nonempty path segment. -/
def modelCompile (pattern : String) : CompiledPattern :=
  let psegs := splitSegs pattern.toList
  ⟨psegs.filterMap (fun seg =>
      match seg with
      | ':' :: nameChars => some ⟨String.mk nameChars⟩
      | _ => none),
    fun path => segMatch psegs (splitSegs path.toList)⟩

/-- JavaScript `Array.prototype.indexOf` on the route registry (line 275 of
the source): index of the first occurrence by identity, `-1` when absent.
Object identity is modelled by value equality. -/
def jsIndexOf : List FritterRouterRoute → FritterRouterRoute → Int
  | [], _ => -1
  | r :: rs, route =>
      if r = route then 0
      else
        let i := jsIndexOf rs route
        if i = -1 then -1 else i + 1

/-- `removeRoute` (lines 273-281 of the source): look the route up by
identity with `indexOf` and, when found, `splice` it out. -/
def removeRoute (routes : List FritterRouterRoute) (route : FritterRouterRoute) :
    List FritterRouterRoute :=
  let index := jsIndexOf routes route
  if index ≠ -1 then routes.eraseIdx index.toNat else routes

/-- A heap of JavaScript array objects, addressed by references: mutable
arrays are objects, and distinct variables can alias the same array. -/
structure Heap where
  arrays : List (List FritterRouterRoute)

/-- Read the array object a reference points to. -/
def Heap.read (h : Heap) (ref : Nat) : List FritterRouterRoute :=
  h.arrays.getD ref []

/-- Overwrite the array object a reference points to. -/
def Heap.write (h : Heap) (ref : Nat) (v : List FritterRouterRoute) : Heap :=
  ⟨h.arrays.set ref v⟩

/-- A `FritterRouterMiddleware` object: its `routes` field (line 53 of the
source) holds a reference to an array object on the heap. -/
structure FritterRouterMiddleware where
  routesRef : Nat

/-- `getRoutes` (lines 170-173 of the source): `return this.routes` returns
the reference held in the field itself, not a copy of the array. -/
def getRoutes (router : FritterRouterMiddleware) : Nat :=
  router.routesRef

/-- `addRoute` (lines 164-167 of the source): `this.routes.push(route)`
mutates the array object in place. -/
def addRoute (h : Heap) (router : FritterRouterMiddleware) (route : FritterRouterRoute) : Heap :=
  h.write router.routesRef (h.read router.routesRef ++ [route])

/-- `removeRoute` as a heap operation: splice the array object in place. -/
def removeRouteOp (h : Heap) (router : FritterRouterMiddleware)
    (route : FritterRouterRoute) : Heap :=
  h.write router.routesRef (removeRoute (h.read router.routesRef) route)

/-- Dispatch through a router object: `execute` iterates `this.routes`, the
array object the router's field currently refers to. -/
def routerExecute (compile : String → CompiledPattern) (h : Heap)
    (router : FritterRouterMiddleware) (reqMethod reqPath : String) :
    Except Unit (List (String × String) × List Event) :=
  execute compile reqMethod reqPath (h.read router.routesRef)

/-! ### Concrete fixtures for the testable scenarios -/

/-- A GET route for pattern `/users/:id` whose handler proceeds. -/
def usersRoute : FritterRouterRoute := ⟨"GET", "/users/:id", none, ⟨1, true⟩⟩

/-- A wildcard-method route for pattern `/users/:id`, registered second. -/
def usersAllRoute : FritterRouterRoute := ⟨"ALL", "/users/:id", none, ⟨2, true⟩⟩

/-- A GET route for pattern `/files/:name` whose handler does not proceed. -/
def filesRoute : FritterRouterRoute := ⟨"GET", "/files/:name", none, ⟨3, false⟩⟩

/-- A GET route whose second middleware short-circuits the chain. -/
def chainRoute : FritterRouterRoute :=
  ⟨"GET", "/m", some [⟨10, true⟩, ⟨11, false⟩, ⟨12, true⟩], ⟨13, true⟩⟩

/-- A GET route whose whole chain proceeds, including the handler. -/
def fullChainRoute : FritterRouterRoute := ⟨"GET", "/x", some [⟨20, true⟩], ⟨21, true⟩⟩

/-- A registered route used by the registry scenarios. -/
def routeA : FritterRouterRoute := ⟨"GET", "/a", none, ⟨30, true⟩⟩

/-- A second, distinct route used by the registry scenarios. -/
def routeB : FritterRouterRoute := ⟨"GET", "/b", none, ⟨31, true⟩⟩

/-- A heap with a single, empty routes array. -/
def heap0 : Heap := ⟨[[]]⟩

/-- A router whose `routes` field refers to the array object of `heap0`. -/
def router0 : FritterRouterMiddleware := ⟨0⟩

/-! ### Chain-execution lemmas -/

theorem executeMiddleware_cons_proceed (mw : MW) (rest : List MW)
    (h : mw.callsProceed = true) :
    executeMiddleware (mw :: rest) = Event.ran mw.id :: executeMiddleware rest := by
  simp [executeMiddleware, h]

theorem executeMiddleware_cons_stop (mw : MW) (rest : List MW)
    (h : mw.callsProceed = false) :
    executeMiddleware (mw :: rest) = [Event.ran mw.id] := by
  simp [executeMiddleware, h]

theorem executeMiddleware_append_proceed (l1 rest : List MW)
    (h : ∀ x ∈ l1, x.callsProceed = true) :
    executeMiddleware (l1 ++ rest) =
      l1.map (fun x => Event.ran x.id) ++ executeMiddleware rest := by
  induction l1 with
  | nil => simp
  | cons mw l1 ih =>
      have hmw : mw.callsProceed = true := h mw (by simp)
      have ih2 := ih (fun x hx => h x (by simp [hx]))
      simp [executeMiddleware_cons_proceed mw _ hmw, ih2]

theorem executeMiddleware_all_proceed (l : List MW)
    (h : ∀ x ∈ l, x.callsProceed = true) :
    executeMiddleware l = l.map (fun x => Event.ran x.id) ++ [Event.outerNext] := by
  have h2 := executeMiddleware_append_proceed l [] h
  simpa [executeMiddleware] using h2

/-! ### Dispatch-loop lemmas -/

theorem execute_nil (compile : String → CompiledPattern) (reqMethod reqPath : String) :
    execute compile reqMethod reqPath [] = .ok ([], [Event.outerNext]) := rfl

theorem execute_skip (compile : String → CompiledPattern) (reqMethod reqPath : String)
    (route : FritterRouterRoute) (rest : List FritterRouterRoute)
    (h : ¬ routeMatches compile reqMethod reqPath route) :
    execute compile reqMethod reqPath (route :: rest) =
      execute compile reqMethod reqPath rest := by
  by_cases hm : methodCheckSkips route reqMethod
  · simp [execute, hm]
  · have hx : (compile route.path).exec reqPath = none := by
      by_contra hx
      exact h ⟨hm, hx⟩
    simp [execute, hm, hx]

theorem execute_match (compile : String → CompiledPattern) (reqMethod reqPath : String)
    (route : FritterRouterRoute) (rest : List FritterRouterRoute)
    (captures : List (Option String))
    (hm : ¬ methodCheckSkips route reqMethod)
    (hx : (compile route.path).exec reqPath = some captures) :
    execute compile reqMethod reqPath (route :: rest) =
      match extractRouteParameters (compile route.path).keys captures with
      | .error e => .error e
      | .ok params => .ok (params, executeMiddleware (effectiveChain route)) := by
  simp [execute, hm, hx]

theorem execute_skips_append (compile : String → CompiledPattern) (reqMethod reqPath : String)
    (l1 rest : List FritterRouterRoute)
    (h : ∀ r ∈ l1, ¬ routeMatches compile reqMethod reqPath r) :
    execute compile reqMethod reqPath (l1 ++ rest) =
      execute compile reqMethod reqPath rest := by
  induction l1 with
  | nil => simp
  | cons r l1 ih =>
      have hr := h r (by simp)
      rw [List.cons_append, execute_skip compile reqMethod reqPath r _ hr]
      exact ih (fun x hx => h x (by simp [hx]))

theorem execute_append_of_matches (compile : String → CompiledPattern)
    (reqMethod reqPath : String) (l l2 : List FritterRouterRoute)
    (h : ∃ r ∈ l, routeMatches compile reqMethod reqPath r) :
    execute compile reqMethod reqPath (l ++ l2) =
      execute compile reqMethod reqPath l := by
  induction l with
  | nil => simp at h
  | cons r t ih =>
      by_cases hr : routeMatches compile reqMethod reqPath r
      · obtain ⟨hm, hx⟩ := hr
        obtain ⟨captures, hcap⟩ : ∃ c, (compile r.path).exec reqPath = some c := by
          cases hx2 : (compile r.path).exec reqPath with
          | none => exact absurd hx2 hx
          | some c => exact ⟨c, rfl⟩
        rw [List.cons_append, execute_match compile reqMethod reqPath r _ captures hm hcap,
          execute_match compile reqMethod reqPath r _ captures hm hcap]
      · rw [List.cons_append, execute_skip compile reqMethod reqPath r _ hr,
          execute_skip compile reqMethod reqPath r _ hr]
        apply ih
        obtain ⟨r0, hr0, hmatch⟩ := h
        rcases List.mem_cons.mp hr0 with h0 | h0
        · exact absurd (h0 ▸ hmatch) hr
        · exact ⟨r0, h0, hmatch⟩

/-! ### Parameter-extraction lemmas -/

theorem getProperty_jsSetProperty_self (params : List (String × String)) (n v : String) :
    getProperty (jsSetProperty params n v) n = some v := by
  induction params with
  | nil => simp [jsSetProperty, getProperty]
  | cons p ps ih =>
      by_cases h : p.1 = n
      · simp [jsSetProperty, h, getProperty]
      · simp [jsSetProperty, h, getProperty, ih]

theorem getProperty_jsSetProperty_other (params : List (String × String)) (n n2 v : String)
    (h : n ≠ n2) :
    getProperty (jsSetProperty params n2 v) n = getProperty params n := by
  induction params with
  | nil => simp [jsSetProperty, getProperty, Ne.symm h]
  | cons p ps ih =>
      by_cases h2 : p.1 = n2
      · have hp : p.1 ≠ n := by rw [h2]; exact fun he => h he.symm
        simp [jsSetProperty, h2, getProperty, Ne.symm h, hp]
      · simp [jsSetProperty, h2, getProperty, ih]

theorem mem_jsSetProperty (params : List (String × String)) (n v : String)
    (q : String × String) (h : q ∈ jsSetProperty params n v) :
    q.1 = n ∨ q ∈ params := by
  induction params with
  | nil =>
      simp [jsSetProperty] at h
      simp [h]
  | cons p ps ih =>
      by_cases h2 : p.1 = n
      · simp [jsSetProperty, h2] at h
        rcases h with h | h
        · exact Or.inl (by simp [h])
        · exact Or.inr (by simp [h])
      · simp [jsSetProperty, h2] at h
        rcases h with h | h
        · exact Or.inr (by simp [h])
        · rcases ih h with h3 | h3
          · exact Or.inl h3
          · exact Or.inr (by simp [h3])

theorem extractParamsAux_nil_keys (captures : List (Option String))
    (params : List (String × String)) :
    extractParamsAux [] captures params = .ok params := by
  induction captures with
  | nil => rfl
  | cons c cs ih => simpa [extractParamsAux] using ih

theorem extractParamsAux_preserves (keys : List Key) (captures : List (Option String))
    (params0 params : List (String × String)) (n : String)
    (hn : n ∉ keys.map Key.name)
    (h : extractParamsAux keys captures params0 = .ok params) :
    getProperty params n = getProperty params0 n := by
  induction captures generalizing keys params0 with
  | nil =>
      simp only [extractParamsAux, Except.ok.injEq] at h
      rw [h]
  | cons c cs ih =>
      cases keys with
      | nil =>
          rw [extractParamsAux_nil_keys] at h
          simp only [Except.ok.injEq] at h
          rw [h]
      | cons k ks =>
          simp only [List.map_cons, List.mem_cons, not_or] at hn
          cases hd : decodeURIComponent (jsCaptureToString c) with
          | error e => simp [extractParamsAux, hd] at h
          | ok v =>
              simp only [extractParamsAux, hd] at h
              rw [ih ks _ hn.2 h, getProperty_jsSetProperty_other _ _ _ _ hn.1]

theorem extractParamsAux_lookup (captures : List (Option String)) (keys : List Key)
    (params0 params : List (String × String)) (i : Nat) (k : Key) (c : Option String)
    (v : String)
    (hnd : (keys.map Key.name).Nodup)
    (hk : keys.get? i = some k) (hc : captures.get? i = some c)
    (hv : decodeURIComponent (jsCaptureToString c) = .ok v)
    (h : extractParamsAux keys captures params0 = .ok params) :
    getProperty params k.name = some v := by
  induction captures generalizing keys params0 i with
  | nil => simp at hc
  | cons c0 cs ih =>
      cases keys with
      | nil => simp at hk
      | cons k0 ks =>
          simp only [List.map_cons, List.nodup_cons] at hnd
          cases i with
          | zero =>
              obtain rfl : k0 = k := by simpa using hk
              obtain rfl : c0 = c := by simpa using hc
              simp only [extractParamsAux, hv] at h
              rw [extractParamsAux_preserves ks cs _ params _ hnd.1 h,
                getProperty_jsSetProperty_self]
          | succ j =>
              cases hd : decodeURIComponent (jsCaptureToString c0) with
              | error e => simp [extractParamsAux, hd] at h
              | ok v0 =>
                  simp only [extractParamsAux, hd] at h
                  exact ih ks _ j hnd.2 (by simpa using hk) (by simpa using hc) h

theorem extractParamsAux_take (keys : List Key) (captures : List (Option String))
    (params0 : List (String × String)) :
    extractParamsAux keys captures params0 =
      extractParamsAux keys (captures.take keys.length) params0 := by
  induction keys generalizing captures params0 with
  | nil => simp [extractParamsAux_nil_keys]
  | cons k ks ih =>
      cases captures with
      | nil => simp
      | cons c cs =>
          cases hd : decodeURIComponent (jsCaptureToString c) with
          | error e => simp [extractParamsAux, hd]
          | ok v =>
              simp only [List.length_cons, List.take_succ_cons, extractParamsAux, hd]
              exact ih cs _

theorem extractParamsAux_names (keys : List Key) (captures : List (Option String))
    (params0 params : List (String × String))
    (h : extractParamsAux keys captures params0 = .ok params) :
    ∀ q ∈ params, q.1 ∈ keys.map Key.name ∨ q ∈ params0 := by
  induction captures generalizing keys params0 with
  | nil =>
      simp only [extractParamsAux, Except.ok.injEq] at h
      exact fun q hq => Or.inr (h ▸ hq)
  | cons c cs ih =>
      cases keys with
      | nil =>
          rw [extractParamsAux_nil_keys] at h
          simp only [Except.ok.injEq] at h
          exact fun q hq => Or.inr (h ▸ hq)
      | cons k ks =>
          cases hd : decodeURIComponent (jsCaptureToString c) with
          | error e => simp [extractParamsAux, hd] at h
          | ok v =>
              simp only [extractParamsAux, hd] at h
              intro q hq
              rcases ih ks _ h q hq with h2 | h2
              · exact Or.inl (by simp only [List.map_cons, List.mem_cons]; exact Or.inr h2)
              · rcases mem_jsSetProperty _ _ _ _ h2 with h3 | h3
                · exact Or.inl (by simp [h3])
                · exact Or.inr h3

/-! ### Registry lemmas -/

theorem jsIndexOf_not_mem (routes : List FritterRouterRoute) (route : FritterRouterRoute)
    (h : route ∉ routes) : jsIndexOf routes route = -1 := by
  induction routes with
  | nil => rfl
  | cons r rs ih =>
      simp only [List.mem_cons, not_or] at h
      have hne : r ≠ route := fun he => h.1 he.symm
      simp [jsIndexOf, hne, ih h.2]

theorem jsIndexOf_first (l1 l2 : List FritterRouterRoute) (route : FritterRouterRoute)
    (h : route ∉ l1) : jsIndexOf (l1 ++ route :: l2) route = (l1.length : Int) := by
  induction l1 with
  | nil => simp [jsIndexOf]
  | cons r rs ih =>
      simp only [List.mem_cons, not_or] at h
      have hne : r ≠ route := fun he => h.1 he.symm
      have ih2 := ih h.2
      have hpos : ((rs.length : Int)) ≠ -1 := by omega
      simp [jsIndexOf, hne, ih2, hpos]

theorem eraseIdx_append_length (l1 l2 : List FritterRouterRoute)
    (route : FritterRouterRoute) :
    (l1 ++ route :: l2).eraseIdx l1.length = l1 ++ l2 := by
  induction l1 with
  | nil => simp [List.eraseIdx]
  | cons r rs ih => simpa [List.eraseIdx] using ih

theorem removeRoute_not_mem (routes : List FritterRouterRoute)
    (route : FritterRouterRoute) (h : route ∉ routes) :
    removeRoute routes route = routes := by
  simp [removeRoute, jsIndexOf_not_mem routes route h]

theorem removeRoute_first (l1 l2 : List FritterRouterRoute) (route : FritterRouterRoute)
    (h : route ∉ l1) :
    removeRoute (l1 ++ route :: l2) route = l1 ++ l2 := by
  have hidx := jsIndexOf_first l1 l2 route h
  have hne : ((l1.length : Int)) ≠ -1 := by omega
  simp only [removeRoute, hidx, hne, if_true, ne_eq, not_false_eq_true, ite_true]
  rw [Int.toNat_natCast]
  exact eraseIdx_append_length l1 l2 route

/-! ### Heap lemmas -/

theorem getD_set_self {α : Type} : ∀ (l : List α) (i : Nat) (v d : α),
    i < l.length → (l.set i v).getD i d = v
  | [], i, _, _, h => absurd h (Nat.not_lt_zero i)
  | _ :: _, 0, _, _, _ => rfl
  | _ :: xs, i + 1, v, d, h => getD_set_self xs i v d (Nat.lt_of_succ_lt_succ h)

theorem Heap.read_write_self (h : Heap) (ref : Nat) (v : List FritterRouterRoute)
    (href : ref < h.arrays.length) : (h.write ref v).read ref = v := by
  simp only [Heap.read, Heap.write]
  exact getD_set_self h.arrays ref v [] href

/-! ### Claim theorems -/

/-- C1: when every route registered before `r1` fails to match and `r1`
matches (method check passes, pattern matches, parameters extract), `execute`
runs `r1`'s handler chain, and its entire result is independent of every
route registered after `r1` — a later matching route `r2` in `rest` is never
evaluated or run, and no further routes are scanned after `r1`'s chain
completes, regardless of whether any handler in the chain called proceed. -/
theorem claim_C1 (compile : String → CompiledPattern) (reqMethod reqPath : String)
    (pre : List FritterRouterRoute) (r1 : FritterRouterRoute)
    (rest : List FritterRouterRoute) (captures : List (Option String))
    (params : List (String × String))
    (hpre : ∀ r ∈ pre, ¬ routeMatches compile reqMethod reqPath r)
    (hm : ¬ methodCheckSkips r1 reqMethod)
    (hx : (compile r1.path).exec reqPath = some captures)
    (hp : extractRouteParameters (compile r1.path).keys captures = .ok params) :
    execute compile reqMethod reqPath (pre ++ r1 :: rest) =
        .ok (params, executeMiddleware (effectiveChain r1))
      ∧ execute compile reqMethod reqPath (pre ++ r1 :: rest) =
        execute compile reqMethod reqPath (pre ++ [r1]) := by
  constructor
  · rw [execute_skips_append compile reqMethod reqPath pre _ hpre,
      execute_match compile reqMethod reqPath r1 rest captures hm hx]
    simp only [hp]
  · rw [execute_skips_append compile reqMethod reqPath pre _ hpre,
      execute_skips_append compile reqMethod reqPath pre _ hpre,
      execute_match compile reqMethod reqPath r1 rest captures hm hx,
      execute_match compile reqMethod reqPath r1 [] captures hm hx]

/-- Witness for C1: a GET route for `/users/:id` registered before an ALL
route for the same pattern; both match GET `/users/42`, the first one's
chain runs and the second is never evaluated. -/
theorem claim_C1_witness :
    execute modelCompile "GET" "/users/42" [usersRoute, usersAllRoute] =
      .ok ([("id", "42")], executeMiddleware (effectiveChain usersRoute)) :=
  (claim_C1 modelCompile "GET" "/users/42" [] usersRoute [usersAllRoute]
    [some "42"] [("id", "42")] (by simp) (by decide) rfl rfl).1

/-- C2: for a matched route, the effective chain is `route.middlewares` in
declared order followed by `route.handler` as the last element; when the
chain decomposes as `c1 ++ x :: c2` with every element of `c1` invoking its
proceed callback and `x` never invoking it, the observable events are exactly
the elements of `c1` starting in declared order followed by `x` starting —
no element of `c2` (hence no subsequent middleware and no handler), and no
invocation of the outer pipeline's `next`, ever happens. -/
theorem claim_C2 (compile : String → CompiledPattern) (reqMethod reqPath : String)
    (r1 : FritterRouterRoute) (rest : List FritterRouterRoute)
    (captures : List (Option String)) (params : List (String × String))
    (c1 : List MW) (x : MW) (c2 : List MW)
    (hm : ¬ methodCheckSkips r1 reqMethod)
    (hx : (compile r1.path).exec reqPath = some captures)
    (hp : extractRouteParameters (compile r1.path).keys captures = .ok params)
    (hchain : effectiveChain r1 = c1 ++ x :: c2)
    (hall : ∀ y ∈ c1, y.callsProceed = true)
    (hstop : x.callsProceed = false) :
    execute compile reqMethod reqPath (r1 :: rest) =
      .ok (params, c1.map (fun y => Event.ran y.id) ++ [Event.ran x.id]) := by
  rw [execute_match compile reqMethod reqPath r1 rest captures hm hx]
  simp only [hp]
  rw [hchain, executeMiddleware_append_proceed c1 _ hall,
    executeMiddleware_cons_stop x c2 hstop]

/-- Witness for C2: a route with middleware chain 10, 11, 12 and handler 13
where middleware 11 does not proceed: only 10 and 11 run, in order. -/
theorem claim_C2_witness :
    execute modelCompile "GET" "/m" [chainRoute] =
      .ok ([], [Event.ran 10, Event.ran 11]) :=
  claim_C2 modelCompile "GET" "/m" chainRoute [] [] []
    [⟨10, true⟩] ⟨11, false⟩ [⟨12, true⟩, ⟨13, true⟩]
    (by decide) rfl rfl rfl (by decide) rfl

/-- C3: for a matched route whose whole chain proceeds, the terminal
handler's proceed callback invokes the outer `next` passed into `execute`
(the event list ends with exactly one `outerNext` after the chain), and no
second traversal of the remaining routes happens: the result is identical to
dispatching against the registry truncated after the matched route. -/
theorem claim_C3 (compile : String → CompiledPattern) (reqMethod reqPath : String)
    (r1 : FritterRouterRoute) (rest : List FritterRouterRoute)
    (captures : List (Option String)) (params : List (String × String))
    (hm : ¬ methodCheckSkips r1 reqMethod)
    (hx : (compile r1.path).exec reqPath = some captures)
    (hp : extractRouteParameters (compile r1.path).keys captures = .ok params)
    (hall : ∀ y ∈ effectiveChain r1, y.callsProceed = true) :
    execute compile reqMethod reqPath (r1 :: rest) =
        .ok (params,
          (effectiveChain r1).map (fun y => Event.ran y.id) ++ [Event.outerNext])
      ∧ execute compile reqMethod reqPath (r1 :: rest) =
        execute compile reqMethod reqPath [r1] := by
  constructor
  · rw [execute_match compile reqMethod reqPath r1 rest captures hm hx]
    simp only [hp]
    rw [executeMiddleware_all_proceed _ hall]
  · rw [execute_match compile reqMethod reqPath r1 rest captures hm hx,
      execute_match compile reqMethod reqPath r1 [] captures hm hx]

/-- Witness for C3: a route whose middleware 20 and handler 21 both proceed,
followed by another registered route: 20 and 21 run in order, then the outer
`next` runs; the trailing route is not traversed. -/
theorem claim_C3_witness :
    execute modelCompile "GET" "/x" [fullChainRoute, routeA] =
      .ok ([], [Event.ran 20, Event.ran 21, Event.outerNext]) :=
  (claim_C3 modelCompile "GET" "/x" fullChainRoute [routeA] [] []
    (by decide) rfl rfl (by decide)).1

/-- C4: on a successful match, each captured group whose named parameter slot
is defined is URL-decoded and stored under that name (for slots with distinct
names, the final mapping holds the decoded capture of that slot); in
particular pattern `/users/:id` with path `/users/42` yields the mapping
containing exactly `id = "42"`, and pattern `/files/:name` with path
`/files/a%20b.txt` yields parameter `name = "a b.txt"`. -/
theorem claim_C4 :
    (∀ (keys : List Key) (captures : List (Option String)) (i : Nat) (k : Key)
        (c : Option String) (v : String) (params : List (String × String)),
      (keys.map Key.name).Nodup →
      keys.get? i = some k →
      captures.get? i = some c →
      decodeURIComponent (jsCaptureToString c) = .ok v →
      extractRouteParameters keys captures = .ok params →
      getProperty params k.name = some v)
    ∧ execute modelCompile "GET" "/users/42" [usersRoute] =
        .ok ([("id", "42")], [Event.ran 1, Event.outerNext])
    ∧ ∃ params events,
        execute modelCompile "GET" "/files/a%20b.txt" [filesRoute] =
            .ok (params, events)
          ∧ getProperty params "name" = some "a b.txt" := by
  refine ⟨?_, rfl, [("name", "a b.txt")], [Event.ran 3], rfl, rfl⟩
  intro keys captures i k c v params hnd hk hc hv h
  exact extractParamsAux_lookup captures keys [] params i k c v hnd hk hc hv h

/-- Witness for C4: the general clause applied to the one-slot key list of
`/users/:id` and the capture `"42"`. -/
theorem claim_C4_witness :
    getProperty [("id", "42")] "id" = some "42" :=
  claim_C4.1 [⟨"id"⟩] [some "42"] 0 ⟨"id"⟩ (some "42") "42" [("id", "42")]
    (by simp) rfl rfl rfl rfl

/-- C5: during parameter extraction, capture indices with no corresponding
named parameter slot are skipped silently: the result only depends on the
captures at slot indices (extraction of any capture list equals extraction of
its first `keys.length` captures), and every entry of the resulting mapping
is named by one of the slots. -/
theorem claim_C5 (keys : List Key) (captures : List (Option String)) :
    extractRouteParameters keys captures =
        extractRouteParameters keys (captures.take keys.length)
      ∧ ∀ params, extractRouteParameters keys captures = .ok params →
          ∀ q ∈ params, q.1 ∈ keys.map Key.name := by
  constructor
  · exact extractParamsAux_take keys captures []
  · intro params h q hq
    rcases extractParamsAux_names keys captures [] params h q hq with h2 | h2
    · exact h2
    · simp at h2

/-- Witness for C5: one named slot and a second, unnamed capture: the extra
capture is ignored and the mapping's only entry is named by the slot. -/
theorem claim_C5_witness :
    extractRouteParameters [⟨"id"⟩] [some "42", some "junk"] =
        extractRouteParameters [⟨"id"⟩] ([some "42", some "junk"].take 1)
      ∧ ("id", "42").1 ∈ [Key.mk "id"].map Key.name :=
  ⟨(claim_C5 [⟨"id"⟩] [some "42", some "junk"]).1,
   (claim_C5 [⟨"id"⟩] [some "42", some "junk"]).2 [("id", "42")] rfl
     ("id", "42") (by simp)⟩

/-- C6: when a matched route's parameter extraction fails to URL-decode a
captured value, the error propagates out of `execute` uncaught: the dispatch
result is the error, and in particular it is not a successful dispatch for
any parameter mapping or event list — no handler of the matched route ran and
the outer `next` was not invoked. -/
theorem claim_C6 (compile : String → CompiledPattern) (reqMethod reqPath : String)
    (route : FritterRouterRoute) (rest : List FritterRouterRoute)
    (captures : List (Option String))
    (hm : ¬ methodCheckSkips route reqMethod)
    (hx : (compile route.path).exec reqPath = some captures)
    (he : extractRouteParameters (compile route.path).keys captures = .error ()) :
    execute compile reqMethod reqPath (route :: rest) = .error ()
      ∧ ∀ (params : List (String × String)) (events : List Event),
          execute compile reqMethod reqPath (route :: rest) ≠ .ok (params, events) := by
  have h1 : execute compile reqMethod reqPath (route :: rest) = .error () := by
    rw [execute_match compile reqMethod reqPath route rest captures hm hx]
    simp only [he]
  refine ⟨h1, fun params events hcontra => ?_⟩
  rw [h1] at hcontra
  exact Except.noConfusion hcontra

/-- Witness for C6: request path `/files/%zz` carries a malformed
percent-escape; dispatching it against the `/files/:name` route raises. -/
theorem claim_C6_witness :
    execute modelCompile "GET" "/files/%zz" [filesRoute] = .error () :=
  (claim_C6 modelCompile "GET" "/files/%zz" filesRoute [] [some "%zz"]
    (by decide) rfl rfl).1

/-- C7: the method check skips a route exactly when its method is neither the
wildcard `"ALL"` nor equal (exact string comparison) to the request method; a
skipped route leaves the dispatch unchanged, and a route with method `"ALL"`
is never skipped by the method check, for every request method. -/
theorem claim_C7 (route : FritterRouterRoute) (reqMethod : String) :
    (methodCheckSkips route reqMethod ↔
        (route.method ≠ "ALL" ∧ route.method ≠ reqMethod))
      ∧ (route.method = "ALL" → ¬ methodCheckSkips route reqMethod)
      ∧ ∀ (compile : String → CompiledPattern) (reqPath : String)
          (rest : List FritterRouterRoute), methodCheckSkips route reqMethod →
          execute compile reqMethod reqPath (route :: rest) =
            execute compile reqMethod reqPath rest := by
  refine ⟨Iff.rfl, ?_, ?_⟩
  · intro hAll hskip
    exact hskip.1 hAll
  · intro compile reqPath rest hskip
    simp [execute, hskip]

/-- Witness for C7: a route registered with lowercase method `"get"` is
skipped for request method `"GET"` (case-sensitive comparison), and a route
with method `"ALL"` passes the method check for method `"DELETE"`. -/
theorem claim_C7_witness :
    ¬ methodCheckSkips ⟨"ALL", "/x", none, ⟨0, true⟩⟩ "DELETE"
      ∧ execute modelCompile "GET" "/x" [⟨"get", "/x", none, ⟨0, true⟩⟩] =
          execute modelCompile "GET" "/x" [] :=
  ⟨(claim_C7 ⟨"ALL", "/x", none, ⟨0, true⟩⟩ "DELETE").2.1 rfl,
   (claim_C7 ⟨"get", "/x", none, ⟨0, true⟩⟩ "GET").2.2 modelCompile "/x" []
     (by decide)⟩

/-- C8: when no registered route matches the request (every route is skipped
on the method check or fails the path match), `execute` raises no error and
its only observable event is a single invocation of the outer `next`: a
no-match dispatch is a fallthrough, not a failure. -/
theorem claim_C8 (compile : String → CompiledPattern) (reqMethod reqPath : String)
    (routes : List FritterRouterRoute)
    (h : ∀ r ∈ routes, ¬ routeMatches compile reqMethod reqPath r) :
    execute compile reqMethod reqPath routes = .ok ([], [Event.outerNext]) := by
  have h2 := execute_skips_append compile reqMethod reqPath routes [] h
  simpa using h2

/-- Witness for C8: a POST request to `/b` against a registry holding only a
GET route for `/a` falls through to the outer `next`. -/
theorem claim_C8_witness :
    execute modelCompile "POST" "/b" [routeA] = .ok ([], [Event.outerNext]) :=
  claim_C8 modelCompile "POST" "/b" [routeA] (by decide)

/-- C9: `removeRoute` removes the first occurrence of the route found by
identity, decreasing the registry length by one and preserving the relative
order of all the other routes; when the route is not present, `removeRoute`
is a silent no-op leaving the registry unchanged. -/
theorem claim_C9 (routes l1 l2 : List FritterRouterRoute)
    (route : FritterRouterRoute) :
    (route ∉ routes → removeRoute routes route = routes)
      ∧ (routes = l1 ++ route :: l2 → route ∉ l1 →
          removeRoute routes route = l1 ++ l2
            ∧ routes.length = (removeRoute routes route).length + 1) := by
  constructor
  · exact removeRoute_not_mem routes route
  · rintro rfl hnl1
    have h2 := removeRoute_first l1 l2 route hnl1
    refine ⟨h2, ?_⟩
    rw [h2]
    simp [List.length_append]
    omega

/-- Witness for C9: removing an absent route is a no-op, and removing a route
present twice removes only its first occurrence, keeping the order. -/
theorem claim_C9_witness :
    removeRoute [routeA] routeB = [routeA]
      ∧ removeRoute [routeA, routeB, routeB] routeB = [routeA, routeB] :=
  ⟨(claim_C9 [routeA] [] [] routeB).1 (by decide),
   ((claim_C9 [routeA, routeB, routeB] [routeA] [routeB] routeB).2 rfl
     (by decide)).1⟩

/-- C10: `getRoutes` returns the router's live internal routes array, not a
copy: the reference it returns is the router's own `routes` field, the very
array object `addRoute` pushes to and `removeRoute` splices, so a subsequent
`addRoute` or `removeRoute` is visible through a previously returned array,
and overwriting the array through the returned reference changes exactly the
routes `execute` dispatches over. -/
theorem claim_C10 (h : Heap) (router : FritterRouterMiddleware)
    (route : FritterRouterRoute) (href : router.routesRef < h.arrays.length) :
    getRoutes router = router.routesRef
      ∧ (addRoute h router route).read (getRoutes router) =
          h.read (getRoutes router) ++ [route]
      ∧ (removeRouteOp h router route).read (getRoutes router) =
          removeRoute (h.read (getRoutes router)) route
      ∧ ∀ (newRoutes : List FritterRouterRoute)
          (compile : String → CompiledPattern) (reqMethod reqPath : String),
          routerExecute compile (h.write (getRoutes router) newRoutes) router
              reqMethod reqPath =
            execute compile reqMethod reqPath newRoutes := by
  refine ⟨rfl, ?_, ?_, ?_⟩
  · simp only [addRoute, getRoutes]
    exact Heap.read_write_self h router.routesRef _ href
  · simp only [removeRouteOp, getRoutes]
    exact Heap.read_write_self h router.routesRef _ href
  · intro newRoutes compile reqMethod reqPath
    simp only [routerExecute, getRoutes]
    rw [Heap.read_write_self h router.routesRef newRoutes href]

/-- Witness for C10: on a one-array heap, an `addRoute` through the router is
visible through the array reference `getRoutes` returned beforehand. -/
theorem claim_C10_witness :
    (addRoute heap0 router0 routeA).read (getRoutes router0) =
      heap0.read (getRoutes router0) ++ [routeA] :=
  (claim_C10 heap0 router0 routeA (by decide)).2.1
